import Mathlib

/-!
Verification of the room-scoped real-time broadcast core of the backend
(`src/main.py`): the `ConnectionManager` class (connect / disconnect /
broadcast over a dict mapping room code to a Python list of websockets),
the room-directory lookup helper `get_room_by_code`, and the HTTP/WebSocket
call sites that normalize room codes (`join_room`, `get_room`, `start_game`,
`ws_room`).

Modelling choices, all taken from the source:
* A websocket session is identified by a `Nat`; Python object identity and
  `==` on websockets coincide for the operations used (`in`, `list.remove`).
* `ConnectionManager.active : Dict[str, List[WebSocket]]` is an association
  list `Reg` with dict semantics: unique keys, `find?` reads the entry,
  `set` replaces the value of an existing key in place (or appends a new
  key at the end, as Python dict insertion does), `eraseKey` deletes a key.
* `ws.send_json` either succeeds or raises; a broadcast-local success
  predicate `ok : Session → Bool` decides which, and `send` returns
  `Except Unit Unit` accordingly.  The `try/except: pass` of
  `ConnectionManager.broadcast` is the `match` on that `Except`.
* Python `list.remove(x)` removes the first occurrence: `List.erase`.
-/

abbrev Session := Nat
abbrev Room := String

/-- The `ConnectionManager.active` dict: room code -> list of websockets. -/
abbrev Reg := List (Room × List Session)

namespace Reg

/-- Dict read: `self.active[room]` / `room in self.active`. -/
def find? : Reg → Room → Option (List Session)
  | [], _ => none
  | (k, v) :: rest, r => if k = r then some v else find? rest r

/-- Dict write `self.active[room] = l`: replaces the value of an existing
key in place, appends a fresh key at the end (Python dict semantics). -/
def set : Reg → Room → List Session → Reg
  | [], r, l => [(r, l)]
  | (k, v) :: rest, r, l => if k = r then (k, l) :: rest else (k, v) :: set rest r l

/-- `del self.active[room]`. -/
def eraseKey : Reg → Room → Reg
  | [], _ => []
  | (k, v) :: rest, r => if k = r then rest else (k, v) :: eraseKey rest r

@[simp] theorem find?_set_self (st : Reg) (r : Room) (l : List Session) :
    (st.set r l).find? r = some l := by
  induction st with
  | nil => simp [set, find?]
  | cons p rest ih =>
    obtain ⟨k, v⟩ := p
    by_cases h : k = r <;> simp [set, find?, h, ih]

theorem find?_set_ne (st : Reg) {r r' : Room} (l : List Session) (h : r ≠ r') :
    (st.set r l).find? r' = st.find? r' := by
  induction st with
  | nil => simp [set, find?, h]
  | cons p rest ih =>
    obtain ⟨k, v⟩ := p
    by_cases hk : k = r
    · subst hk; simp [set, find?, h, ih]
    · by_cases hk' : k = r' <;> simp [set, find?, hk, hk', Ne.symm h, ih]

/-- Writing back the value a key already holds is a no-op. -/
theorem set_eq_self_of_find? {st : Reg} {r : Room} {l : List Session}
    (h : st.find? r = some l) : st.set r l = st := by
  induction st with
  | nil => simp [find?] at h
  | cons p rest ih =>
    obtain ⟨k, v⟩ := p
    by_cases hk : k = r
    · subst hk
      simp [find?] at h
      simp [set, h]
    · simp [find?, hk] at h
      simp [set, hk, ih h]

theorem find?_eraseKey_ne (st : Reg) {r r' : Room} (h : r ≠ r') :
    (st.eraseKey r).find? r' = st.find? r' := by
  induction st with
  | nil => simp [eraseKey]
  | cons p rest ih =>
    obtain ⟨k, v⟩ := p
    by_cases hk : k = r
    · subst hk; simp [eraseKey, find?, h, ih]
    · by_cases hk' : k = r' <;> simp [eraseKey, find?, hk, hk', Ne.symm h, ih]

/-- Keys of the registry, in order. -/
def keys (st : Reg) : List Room := st.map Prod.fst

theorem find?_eq_none_of_not_mem_keys {st : Reg} {r : Room} (h : r ∉ st.keys) :
    st.find? r = none := by
  induction st with
  | nil => rfl
  | cons p rest ih =>
    obtain ⟨k, v⟩ := p
    rw [keys, List.map_cons, List.mem_cons] at h
    push_neg at h
    simp [find?, Ne.symm h.1]
    exact ih h.2

theorem find?_eraseKey_self {st : Reg} (r : Room) (h : st.keys.Nodup) :
    (st.eraseKey r).find? r = none := by
  induction st with
  | nil => simp [eraseKey, find?]
  | cons p rest ih =>
    obtain ⟨k, v⟩ := p
    rw [keys, List.map_cons, List.nodup_cons] at h
    by_cases hk : k = r
    · subst hk
      simp only [eraseKey, if_pos rfl]
      exact find?_eq_none_of_not_mem_keys h.1
    · simp [eraseKey, find?, hk]
      exact ih h.2

/-- Pair membership in `set`: every entry is an old entry or the new one. -/
theorem mem_set {st : Reg} {r : Room} {l : List Session} {p : Room × List Session}
    (h : p ∈ st.set r l) : p ∈ st ∨ p = (r, l) := by
  induction st with
  | nil =>
    simp only [set, List.mem_singleton] at h
    right; exact h
  | cons q rest ih =>
    obtain ⟨k, v⟩ := q
    by_cases hk : k = r
    · subst hk
      simp [set] at h
      rcases h with h | h
      · right; simp [h]
      · left; simp [h]
    · simp [set, hk] at h
      rcases h with h | h
      · left; simp [h]
      · rcases ih h with h' | h'
        · left; simp [h']
        · right; exact h'

/-- Pair membership in `eraseKey`: every surviving entry was an entry. -/
theorem mem_eraseKey {st : Reg} {r : Room} {p : Room × List Session}
    (h : p ∈ st.eraseKey r) : p ∈ st := by
  induction st with
  | nil => simp [eraseKey] at h
  | cons q rest ih =>
    obtain ⟨k, v⟩ := q
    by_cases hk : k = r
    · subst hk; simp [eraseKey] at h; simp [h]
    · simp [eraseKey, hk] at h
      rcases h with h | h
      · simp [h]
      · simp [ih h]

end Reg

/-- `ConnectionManager.connect` (its registry effect; `websocket.accept()`
precedes it and has no registry effect):
`self.active.setdefault(room, []).append(websocket)`. -/
def connect (st : Reg) (r : Room) (w : Session) : Reg :=
  st.set r (((st.find? r).getD []) ++ [w])

/-- `ConnectionManager.disconnect`:
remove first occurrence if present, delete the room entry if it became empty. -/
def disconnect (st : Reg) (r : Room) (w : Session) : Reg :=
  match st.find? r with
  | none => st
  | some l =>
    if w ∈ l then
      let l' := l.erase w
      if l' = [] then st.eraseKey r else st.set r l'
    else st

/-- `await ws.send_json(message)`: succeeds or raises, as decided by the
per-broadcast success predicate `ok`. -/
def send (ok : Session → Bool) (w : Session) : Except Unit Unit :=
  if ok w then .ok () else .error ()

/-- The body of the broadcast loop: `try: await ws.send_json(...); living.append(ws)
except Exception: pass`. -/
def sendStep (ok : Session → Bool) (living : List Session) (w : Session) : List Session :=
  match send ok w with
  | .ok _ => living ++ [w]
  | .error _ => living

/-- `ConnectionManager.broadcast`: returns the new registry and the list of
sessions to which the message was delivered (the sends that succeeded).
The function is total: per-peer send errors are consumed by `sendStep`,
never surfaced to the caller. -/
def broadcast (ok : Session → Bool) (st : Reg) (r : Room) : Reg × List Session :=
  match st.find? r with
  | none => (st, [])
  | some l =>
    let living := l.foldl (sendStep ok) []
    (st.set r living, living)

theorem foldl_sendStep (ok : Session → Bool) (l acc : List Session) :
    l.foldl (sendStep ok) acc = acc ++ l.filter ok := by
  induction l generalizing acc with
  | nil => simp
  | cons x xs ih =>
    by_cases h : ok x <;>
      simp [List.foldl_cons, sendStep, send, h, ih, List.filter_cons]

theorem broadcast_fst (ok : Session → Bool) (st : Reg) (r : Room)
    (l : List Session) (h : st.find? r = some l) :
    (broadcast ok st r).1 = st.set r (l.filter ok) ∧
    (broadcast ok st r).2 = l.filter ok := by
  simp [broadcast, h, foldl_sendStep]

theorem find?_mem {st : Reg} {r : Room} {l : List Session}
    (h : st.find? r = some l) : (r, l) ∈ st := by
  induction st with
  | nil => simp [Reg.find?] at h
  | cons p rest ih =>
    obtain ⟨k, v⟩ := p
    by_cases hk : k = r
    · subst hk
      simp [Reg.find?] at h
      simp [h]
    · simp [Reg.find?, hk] at h
      simp [ih h]

theorem length_filter_ok (ok : Session → Bool) (l : List Session) :
    (l.filter ok).length + (l.filter (fun w => !ok w)).length = l.length := by
  induction l with
  | nil => rfl
  | cons x xs ih => by_cases h : ok x <;> simp [List.filter_cons, h] <;> omega

/-- **C1.** If room `r` holds the session list `l` (its N registered sessions)
and a broadcast is issued in which exactly the sessions with `ok w = false`
fail their send, the room's list afterwards is exactly `l.filter ok`: it has
N − K entries (K the number of failures), every failed session is evicted,
and no successful session is removed. -/
theorem broadcast_evicts_exactly_failed (ok : Session → Bool) (st : Reg)
    (r : Room) (l : List Session) (h : st.find? r = some l) :
    (broadcast ok st r).1.find? r = some (l.filter ok) ∧
    (l.filter ok).length + (l.filter (fun w => !ok w)).length = l.length ∧
    (∀ w, w ∈ l.filter ok ↔ (w ∈ l ∧ ok w = true)) := by
  refine ⟨?_, length_filter_ok ok l, ?_⟩
  · rw [(broadcast_fst ok st r l h).1, Reg.find?_set_self]
  · intro w
    exact List.mem_filter

/-- Witness for C1: room `"R"` holds `[1, 2, 3]`; session `2` fails its send. -/
theorem broadcast_evicts_exactly_failed_witness :
    (Reg.find? [("R", [1, 2, 3])] "R" = some [1, 2, 3]) ∧
    ((broadcast (fun w => w != 2) [("R", [1, 2, 3])] "R").1.find? "R" =
        some ([1, 2, 3].filter (fun w => w != 2)) ∧
      ([1, 2, 3].filter (fun w => (w : Session) != 2)).length +
        ([1, 2, 3].filter (fun w => !((w : Session) != 2))).length = [1, 2, 3].length ∧
      (∀ w, w ∈ [1, 2, 3].filter (fun w => (w : Session) != 2) ↔
        (w ∈ [1, 2, 3] ∧ (w != 2) = true))) :=
  ⟨rfl, broadcast_evicts_exactly_failed (fun w => w != 2) [("R", [1, 2, 3])] "R" [1, 2, 3] rfl⟩

/-- A registry operation as invoked by the service layer: `reg`/`unreg` are
the registry effects of `ConnectionManager.connect`/`disconnect`, and
`bcast r ok` is a broadcast to room `r` in which exactly the sessions with
`ok w = false` fail their send. -/
inductive Op where
  | reg (r : Room) (w : Session)
  | unreg (r : Room) (w : Session)
  | bcast (r : Room) (ok : Session → Bool)

def applyOp (st : Reg) : Op → Reg
  | .reg r w => connect st r w
  | .unreg r w => disconnect st r w
  | .bcast r ok => (broadcast ok st r).1

/-- Run a sequence of operations from the initial (empty) registry of
`ConnectionManager.__init__`. -/
def runOps (ops : List Op) : Reg := ops.foldl applyOp []

/-- `Op.isRU op = true` iff `op` is a register or unregister. -/
def Op.isRU : Op → Bool
  | .bcast _ _ => false
  | _ => true

/-- Every entry of the registry holds a non-empty session list. -/
def NonemptyEntries (st : Reg) : Prop := ∀ p ∈ st, p.2 ≠ ([] : List Session)

theorem nonemptyEntries_connect {st : Reg} (h : NonemptyEntries st)
    (r : Room) (w : Session) : NonemptyEntries (connect st r w) := by
  intro p hp
  rcases Reg.mem_set hp with hp' | hp'
  · exact h p hp'
  · subst hp'; simp

theorem nonemptyEntries_disconnect {st : Reg} (h : NonemptyEntries st)
    (r : Room) (w : Session) : NonemptyEntries (disconnect st r w) := by
  unfold disconnect
  cases hf : st.find? r with
  | none => exact h
  | some l =>
    by_cases hw : w ∈ l
    · by_cases he : l.erase w = []
      · simp only [hw, if_true, he, if_pos rfl]
        intro p hp
        exact h p (Reg.mem_eraseKey hp)
      · simp only [hw, if_true, he, if_neg he]
        intro p hp
        rcases Reg.mem_set hp with hp' | hp'
        · exact h p hp'
        · subst hp'; exact he
    · simp only [hw, if_false]
      exact h

theorem nonemptyEntries_foldl_ru (ops : List Op) (st : Reg)
    (hst : NonemptyEntries st) (h : ∀ op ∈ ops, op.isRU = true) :
    NonemptyEntries (ops.foldl applyOp st) := by
  induction ops generalizing st with
  | nil => exact hst
  | cons op rest ih =>
    have hop := h op (List.mem_cons_self op rest)
    have hrest : ∀ op' ∈ rest, op'.isRU = true :=
      fun op' hm => h op' (List.mem_cons_of_mem op hm)
    cases op with
    | reg r w =>
      exact ih (connect st r w) (nonemptyEntries_connect hst r w) hrest
    | unreg r w =>
      exact ih (disconnect st r w) (nonemptyEntries_disconnect hst r w) hrest
    | bcast r ok => simp [Op.isRU] at hop

/-- **C2 counterexample.** The claim quantifies over sequences of register,
unregister and broadcast operations; it fails on the sequence
`[register "R" 1, broadcast "R" (all sends fail)]`: `broadcast` writes the
surviving subset back unconditionally (`self.active[room] = living`), so when
every send fails the room stays present mapped to the empty list — it is not
deleted. -/
theorem room_entry_left_empty_by_broadcast :
    (runOps [Op.reg "R" 1, Op.bcast "R" (fun _ => false)]).find? "R" =
      some ([] : List Session) := by
  rfl

/-- **C2 amended.** For every sequence of register (connect) and unregister
(disconnect) operations — broadcasts excluded — a room identifier present in
the registry maps to a non-empty session set: `disconnect` deletes the entry
the instant its last session is removed.  (The original claim also covers
broadcast, where it fails: a broadcast whose sends all fail leaves the room
present with an empty list.) -/
theorem register_unregister_entries_nonempty (ops : List Op)
    (h : ∀ op ∈ ops, op.isRU = true) (r : Room) (l : List Session)
    (hf : (runOps ops).find? r = some l) : l ≠ [] := by
  have hne : NonemptyEntries (runOps ops) :=
    nonemptyEntries_foldl_ru ops [] (by intro p hp; simp at hp) h
  exact hne (r, l) (find?_mem hf)

/-- Witness for C2 amended: the sequence `[register "R" 1, unregister "R" 2,
register "R" 2, unregister "R" 1]` leaves room `"R"` mapped to `[2] ≠ []`. -/
theorem register_unregister_entries_nonempty_witness :
    ([2] : List Session) ≠ [] :=
  register_unregister_entries_nonempty
    [Op.reg "R" 1, Op.unreg "R" 2, Op.reg "R" 2, Op.unreg "R" 1]
    (by intro op hop
        simp only [List.mem_cons, List.not_mem_nil, or_false] at hop
        rcases hop with rfl | rfl | rfl | rfl <;> rfl)
    "R" [2] rfl

/-- **C3.** A send failure during broadcast is isolated: the broadcast still
delivers to every other session of the room's snapshot whose send succeeds
(`w` receives the message however many other sessions fail), exactly the
failing sessions are removed from the room's list, and the successful ones
are kept.  The failure is never surfaced to the caller: `broadcast` is a
total function — the `except Exception: pass` consumes the error inside
`sendStep`. -/
theorem send_failure_isolated (ok : Session → Bool) (st : Reg) (r : Room)
    (l : List Session) (w : Session) (h : st.find? r = some l)
    (hw : w ∈ l) (hok : ok w = true) :
    w ∈ (broadcast ok st r).2 ∧
    (∀ v ∈ l, ok v = false → v ∉ ((broadcast ok st r).1.find? r).getD []) ∧
    (∀ v ∈ l, ok v = true → v ∈ ((broadcast ok st r).1.find? r).getD []) := by
  obtain ⟨h1, h2⟩ := broadcast_fst ok st r l h
  refine ⟨?_, ?_, ?_⟩
  · rw [h2]
    exact List.mem_filter.mpr ⟨hw, hok⟩
  · intro v hv hbad
    rw [h1, Reg.find?_set_self]
    intro hmem
    have := (List.mem_filter.mp hmem).2
    rw [hbad] at this
    exact Bool.false_ne_true this
  · intro v hv hgood
    rw [h1, Reg.find?_set_self]
    exact List.mem_filter.mpr ⟨hv, hgood⟩

/-- Witness for C3: room `"R"` holds `[5, 6]`, session `5` fails its send,
session `6` succeeds and still receives the message. -/
theorem send_failure_isolated_witness :
    (Reg.find? [("R", [5, 6])] "R" = some [5, 6]) ∧ (6 : Session) ∈ [5, 6] ∧
      ((fun w => w != 5) (6 : Session) = true) ∧
    ((6 : Session) ∈ (broadcast (fun w => w != 5) [("R", [5, 6])] "R").2 ∧
      (∀ v ∈ [5, 6], ((v : Session) != 5) = false →
        v ∉ ((broadcast (fun w => w != 5) [("R", [5, 6])] "R").1.find? "R").getD []) ∧
      (∀ v ∈ [5, 6], ((v : Session) != 5) = true →
        v ∈ ((broadcast (fun w => w != 5) [("R", [5, 6])] "R").1.find? "R").getD [])) :=
  ⟨rfl, by decide, by decide,
    send_failure_isolated (fun w => w != 5) [("R", [5, 6])] "R" [5, 6] 6 rfl
      (by decide) (by decide)⟩

/-- **C6.** Broadcasting any message to a room with zero live sessions — the
room absent from the registry (`if room not in self.active: return`), or
present with an empty list — is a no-op: it completes (the function is
total, no error path exists), delivers to nobody, and leaves the registry
unchanged. -/
theorem broadcast_empty_room_noop (ok : Session → Bool) (st : Reg) (r : Room)
    (h : st.find? r = none ∨ st.find? r = some []) :
    broadcast ok st r = (st, []) := by
  rcases h with h | h
  · simp [broadcast, h]
  · simp [broadcast, h, Reg.set_eq_self_of_find? h]

/-- Witness for C6: room `"R"` present with an empty list (and, a fortiori,
zero live sessions). -/
theorem broadcast_empty_room_noop_witness :
    (Reg.find? [("R", [])] "R" = none ∨ Reg.find? [("R", [])] "R" = some []) ∧
    broadcast (fun _ => true) [("R", [])] "R" = ([("R", [])], []) :=
  ⟨Or.inr rfl, broadcast_empty_room_noop (fun _ => true) [("R", [])] "R" (Or.inr rfl)⟩

/-- **C9.** Broadcasting to room `A` never delivers to a session `w` that
lives in a different room `B` (and not in `A` — per the spec a session
belongs to at most one room), and leaves every other room's registry entry
unchanged. -/
theorem broadcast_confined_to_room (ok : Session → Bool) (st : Reg)
    (A B : Room) (w : Session) (hne : B ≠ A)
    (_hB : w ∈ (st.find? B).getD []) (hA : w ∉ (st.find? A).getD []) :
    w ∉ (broadcast ok st A).2 ∧ (broadcast ok st A).1.find? B = st.find? B := by
  cases hf : st.find? A with
  | none => simp [broadcast, hf]
  | some l =>
    rw [hf, Option.getD_some] at hA
    obtain ⟨h1, h2⟩ := broadcast_fst ok st A l hf
    constructor
    · rw [h2]
      intro hmem
      exact hA (List.mem_filter.mp hmem).1
    · rw [h1]
      exact Reg.find?_set_ne st _ (Ne.symm hne)

/-- Witness for C9: rooms `"A"` and `"B"` hold sessions `1` and `2`;
broadcasting to `"A"` does not reach `2` and leaves `"B"` untouched. -/
theorem broadcast_confined_to_room_witness :
    ("B" ≠ "A") ∧ ((2 : Session) ∈ (Reg.find? [("A", [1]), ("B", [2])] "B").getD []) ∧
    ((2 : Session) ∉ (Reg.find? [("A", [1]), ("B", [2])] "A").getD []) ∧
    ((2 : Session) ∉ (broadcast (fun _ => true) [("A", [1]), ("B", [2])] "A").2 ∧
      (broadcast (fun _ => true) [("A", [1]), ("B", [2])] "A").1.find? "B" =
        Reg.find? [("A", [1]), ("B", [2])] "B") :=
  ⟨by decide, by decide, by decide,
    broadcast_confined_to_room (fun _ => true) [("A", [1]), ("B", [2])] "A" "B" 2
      (by decide) (by decide) (by decide)⟩

theorem disconnect_set_branch {st : Reg} {r : Room} {w : Session}
    {l : List Session} (hf : st.find? r = some l) (hw : w ∈ l)
    (hne : l.erase w ≠ []) : disconnect st r w = st.set r (l.erase w) := by
  unfold disconnect
  rw [hf]
  simp [hw, hne]

theorem disconnect_noop_of_not_mem (st : Reg) (r : Room) (w : Session)
    (h : w ∉ (st.find? r).getD []) : disconnect st r w = st := by
  cases hf : st.find? r with
  | none => simp [disconnect, hf]
  | some l =>
    rw [hf, Option.getD_some] at h
    simp [disconnect, hf, h]

/-- **C5 counterexample.** The claim quantifies over every registry state;
it fails on the (reachable, see C10) state built by registering session `7`
twice in room `"R"`: the first `disconnect` removes one occurrence (`[7]`
remains), the second removes the other and deletes the entry — two calls do
not equal one call. -/
theorem disconnect_not_idempotent_on_duplicates :
    disconnect (disconnect (connect (connect [] "R" 7) "R" 7) "R" 7) "R" 7 ≠
      disconnect (connect (connect [] "R" 7) "R" 7) "R" 7 := by
  decide

/-- **C5 amended.** On registry states whose room lists hold a session at
most once (every state reachable without duplicate registration; registry
keys unique as in a Python dict), `disconnect` is idempotent; and on every
state whatsoever, disconnecting a session absent from the room is a no-op,
not an error. -/
theorem disconnect_idempotent (st : Reg) (r : Room) (w : Session)
    (hnd : st.keys.Nodup) (hcount : ((st.find? r).getD []).count w ≤ 1) :
    disconnect (disconnect st r w) r w = disconnect st r w ∧
    (w ∉ (st.find? r).getD [] → disconnect st r w = st) := by
  refine ⟨?_, fun h => disconnect_noop_of_not_mem st r w h⟩
  cases hf : st.find? r with
  | none =>
    have h0 := disconnect_noop_of_not_mem st r w (by rw [hf]; exact List.not_mem_nil w)
    rw [h0, h0]
  | some l =>
    rw [hf, Option.getD_some] at hcount
    by_cases hw : w ∈ l
    · have herase : w ∉ l.erase w := by
        have h1 : l.count w = 1 :=
          Nat.le_antisymm hcount (List.count_pos_iff.mpr hw)
        have : (l.erase w).count w = 0 := by
          rw [List.count_erase_self, h1]
        exact List.count_eq_zero.mp this
      by_cases he : l.erase w = []
      · have hd : disconnect st r w = st.eraseKey r := by
          simp [disconnect, hf, hw, he]
        rw [hd]
        exact disconnect_noop_of_not_mem _ r w
          (by rw [Reg.find?_eraseKey_self r hnd]; exact List.not_mem_nil w)
      · have hd : disconnect st r w = st.set r (l.erase w) := by
          simp [disconnect, hf, hw, he]
        rw [hd]
        exact disconnect_noop_of_not_mem _ r w
          (by rw [Reg.find?_set_self, Option.getD_some]; exact herase)
    · have h0 := disconnect_noop_of_not_mem st r w (by rw [hf, Option.getD_some]; exact hw)
      rw [h0, h0]

/-- Witness for C5 amended: the one-entry state `[("R", [7])]`. -/
theorem disconnect_idempotent_witness :
    ((Reg.keys [("R", [7])]).Nodup ∧
      ((Reg.find? [("R", [7])] "R").getD []).count 7 ≤ 1) ∧
    (disconnect (disconnect [("R", [7])] "R" 7) "R" 7 =
        disconnect [("R", [7])] "R" 7 ∧
      ((7 : Session) ∉ (Reg.find? [("R", [7])] "R").getD [] →
        disconnect [("R", [7])] "R" 7 = [("R", [7])])) :=
  ⟨⟨by decide, by decide⟩,
    disconnect_idempotent [("R", [7])] "R" 7 (by decide) (by decide)⟩

/-- **C10.** Registration does not deduplicate: `connect` appends to the
room's list, so connecting the same websocket twice makes it occur twice;
a single `disconnect` (`list.remove`) removes exactly one occurrence,
leaving the session still present and still a broadcast target — a
subsequent broadcast whose send to it succeeds delivers to it. -/
theorem connect_does_not_deduplicate (st : Reg) (r : Room) (w : Session)
    (ok : Session → Bool) (hok : ok w = true) :
    (((connect (connect st r w) r w).find? r).getD []).count w =
        ((st.find? r).getD []).count w + 2 ∧
    (((disconnect (connect (connect st r w) r w) r w).find? r).getD []).count w =
        ((st.find? r).getD []).count w + 1 ∧
    w ∈ ((disconnect (connect (connect st r w) r w) r w).find? r).getD [] ∧
    w ∈ (broadcast ok (disconnect (connect (connect st r w) r w) r w) r).2 := by
  have h1 : (connect st r w).find? r = some (((st.find? r).getD []) ++ [w]) := by
    simp [connect]
  have h2 : (connect (connect st r w) r w).find? r =
      some ((((st.find? r).getD []) ++ [w]) ++ [w]) := by
    simp [connect, h1]
  have hw2 : w ∈ (((st.find? r).getD []) ++ [w]) ++ [w] := by simp
  have hcnt2 : ((((st.find? r).getD []) ++ [w]) ++ [w]).count w =
      ((st.find? r).getD []).count w + 2 := by
    simp [List.count_append]
  have hcntE : (((((st.find? r).getD []) ++ [w]) ++ [w]).erase w).count w =
      ((st.find? r).getD []).count w + 1 := by
    rw [List.count_erase_self, hcnt2]
    omega
  have hmemE : w ∈ ((((st.find? r).getD []) ++ [w]) ++ [w]).erase w :=
    List.count_pos_iff.mp (by rw [hcntE]; exact Nat.succ_pos _)
  have hneE : ((((st.find? r).getD []) ++ [w]) ++ [w]).erase w ≠ [] :=
    List.ne_nil_of_mem hmemE
  have hd : disconnect (connect (connect st r w) r w) r w =
      (connect (connect st r w) r w).set r
        (((((st.find? r).getD []) ++ [w]) ++ [w]).erase w) :=
    disconnect_set_branch h2 hw2 hneE
  have hf2 : (disconnect (connect (connect st r w) r w) r w).find? r =
      some (((((st.find? r).getD []) ++ [w]) ++ [w]).erase w) := by
    rw [hd, Reg.find?_set_self]
  refine ⟨?_, ?_, ?_, ?_⟩
  · rw [h2, Option.getD_some]
    exact hcnt2
  · rw [hf2, Option.getD_some]
    exact hcntE
  · rw [hf2, Option.getD_some]
    exact hmemE
  · rw [(broadcast_fst ok _ r _ hf2).2]
    exact List.mem_filter.mpr ⟨hmemE, hok⟩

/-- Witness for C10: session `4` registered twice in room `"R"` starting
from the empty registry; all sends succeed. -/
theorem connect_does_not_deduplicate_witness :
    ((fun _ => true : Session → Bool) 4 = true) ∧
    ((((connect (connect [] "R" 4) "R" 4).find? "R").getD []).count 4 =
        ((Reg.find? [] "R").getD []).count 4 + 2 ∧
      (((disconnect (connect (connect [] "R" 4) "R" 4) "R" 4).find? "R").getD []).count 4 =
        ((Reg.find? [] "R").getD []).count 4 + 1 ∧
      (4 : Session) ∈ ((disconnect (connect (connect [] "R" 4) "R" 4) "R" 4).find? "R").getD [] ∧
      (4 : Session) ∈ (broadcast (fun _ => true)
        (disconnect (connect (connect [] "R" 4) "R" 4) "R" 4) "R").2) :=
  ⟨rfl, connect_does_not_deduplicate [] "R" 4 (fun _ => true) rfl⟩

/-- A persisted room document of the `gameroom` collection, reduced to the
fields the lookups compare (`code`; `status` kept for the join check). -/
structure RoomRec where
  code : String
  status : String
deriving DecidableEq

/-- `get_room_by_code`: the first document of the rooms collection whose
`code` field equals `code` (`get_documents(ROOMS_COLLECTION, {"code": code},
limit=1)`), or `none`. -/
def get_room_by_code (rooms : List RoomRec) (code : String) : Option RoomRec :=
  rooms.find? (fun rm => rm.code == code)

/-- Python `str.upper()` on the ASCII room codes: uppercase each character. -/
def pyUpper (s : String) : String := ⟨s.data.map Char.toUpper⟩

/-- The `ws_room` WebSocket endpoint up to registration:
`code = code.upper(); await manager.connect(code, websocket)`.  It receives
the rooms collection like the HTTP endpoints do but — exactly as in the
source — never consults it. -/
def ws_room_register (_rooms : List RoomRec) (st : Reg) (code : String)
    (w : Session) : Reg :=
  connect st (pyUpper code) w

/-- `join_room`'s directory lookup: `get_room_by_code(payload.code.upper())`. -/
def join_room_lookup (rooms : List RoomRec) (code : String) : Option RoomRec :=
  get_room_by_code rooms (pyUpper code)

/-- The `get_room` endpoint's lookup: `get_room_by_code(code.upper())`. -/
def get_room_lookup (rooms : List RoomRec) (code : String) : Option RoomRec :=
  get_room_by_code rooms (pyUpper code)

/-- `start_game`'s lookup: `get_room_by_code(payload.code.upper())`. -/
def start_game_lookup (rooms : List RoomRec) (code : String) : Option RoomRec :=
  get_room_by_code rooms (pyUpper code)

/-- The registry key `ws_room` uses for `connect`, `broadcast` and
`disconnect`: the rebound `code = code.upper()`. -/
def ws_room_key (code : String) : Room := pyUpper code

/-- **C4 (code bug).** `ws_room` performs no Room Directory lookup before
registering.  With an empty rooms collection the code `"NOSUCH"` does not
resolve (`get_room_by_code` returns `none`), yet the WebSocket endpoint
still registers the session and creates the registry entry.  Every HTTP
endpoint (`join_room`, `get_room`, `start_game`) performs the lookup and
rejects an unresolved code with a 404; the WebSocket endpoint alone skips
it, contradicting the spec's admission requirement. -/
theorem ws_room_registers_unresolved_code :
    get_room_by_code [] "NOSUCH" = none ∧
    (ws_room_register [] [] "NOSUCH" 1).find? "NOSUCH" = some [1] :=
  ⟨rfl, by decide⟩

/-- **C7.** Room identifiers are case-insensitive: every directory lookup
taking a client-supplied code (`join_room`, `get_room`, `start_game`)
queries with the canonicalized `.upper()` form, and the only live-registry
key use (`ws_room`) rebinds `code = code.upper()` first — so two codes with
the same canonical form address the same room record and the same registry
entry. -/
theorem room_codes_case_insensitive (rooms : List RoomRec) (st : Reg)
    (w : Session) (c1 c2 : String) (h : pyUpper c1 = pyUpper c2) :
    join_room_lookup rooms c1 = join_room_lookup rooms c2 ∧
    get_room_lookup rooms c1 = get_room_lookup rooms c2 ∧
    start_game_lookup rooms c1 = start_game_lookup rooms c2 ∧
    ws_room_key c1 = ws_room_key c2 ∧
    ws_room_register rooms st c1 w = ws_room_register rooms st c2 w := by
  simp [join_room_lookup, get_room_lookup, start_game_lookup, ws_room_key,
    ws_room_register, h]

/-- Witness for C7: `"ab12"` and `"Ab12"` differ only in letter case. -/
theorem room_codes_case_insensitive_witness :
    (pyUpper "ab12" = pyUpper "Ab12") ∧
    (join_room_lookup [⟨"AB12", "waiting"⟩] "ab12" =
        join_room_lookup [⟨"AB12", "waiting"⟩] "Ab12" ∧
      get_room_lookup [⟨"AB12", "waiting"⟩] "ab12" =
        get_room_lookup [⟨"AB12", "waiting"⟩] "Ab12" ∧
      start_game_lookup [⟨"AB12", "waiting"⟩] "ab12" =
        start_game_lookup [⟨"AB12", "waiting"⟩] "Ab12" ∧
      ws_room_key "ab12" = ws_room_key "Ab12" ∧
      ws_room_register [⟨"AB12", "waiting"⟩] [] "ab12" 1 =
        ws_room_register [⟨"AB12", "waiting"⟩] [] "Ab12" 1) :=
  ⟨by decide, room_codes_case_insensitive [⟨"AB12", "waiting"⟩] [] 1 "ab12" "Ab12" (by decide)⟩

/-- The alphabet of `gen_code`: `string.ascii_uppercase + string.digits`. -/
def genCodeChars : List Char := "ABCDEFGHIJKLMNOPQRSTUVWXYZ0123456789".data

/-- Codes produced by `gen_code` are already canonical: `create_room`'s
uniqueness-loop lookups therefore also query with the canonical form. -/
theorem gen_code_output_canonical (s : String) (h : ∀ c ∈ s.data, c ∈ genCodeChars) :
    pyUpper s = s := by
  have hchars : ∀ c ∈ genCodeChars, c.toUpper = c := by decide
  unfold pyUpper
  cases s with
  | mk data =>
    have h2 : ∀ c ∈ data, Char.toUpper c = id c := fun c hc => hchars c (h c hc)
    have hmap : data.map Char.toUpper = data := by
      rw [List.map_congr_left h2, List.map_id]
    exact congrArg String.mk hmap

/-- A registry mutation performed by another asyncio task while `broadcast`
is suspended in `await ws.send_json(...)`: a new connection into the
broadcast's room (`conn`) or a disconnect from it (`disc`). -/
inductive COp where
  | conn (w : Session)
  | disc (w : Session)

/-- State of an in-flight broadcast over room `r`.  `iter` is the Python
list object `self.active[room]` captured by the `for` loop and mutated in
place by concurrent operations; `alive` records whether the dict still maps
`r` to that same object (it stops doing so after a concurrent disconnect
empties the list and runs `del self.active[room]`; operations after that
act on the registry only and are invisible to the iterator); `st` is the
registry; `acc` is the loop's local `living` list. -/
structure LoopSt where
  iter : List Session
  alive : Bool
  st : Reg
  acc : List Session

/-- Effect of one concurrent operation arriving during an await. -/
def applyCOp (r : Room) (s : LoopSt) : COp → LoopSt
  | .conn w =>
    if s.alive then
      { s with iter := s.iter ++ [w], st := s.st.set r (s.iter ++ [w]) }
    else
      { s with st := connect s.st r w }
  | .disc w =>
    if s.alive then
      if w ∈ s.iter then
        if s.iter.erase w = [] then
          { s with iter := s.iter.erase w, alive := false, st := s.st.eraseKey r }
        else
          { s with iter := s.iter.erase w, st := s.st.set r (s.iter.erase w) }
      else s
    else { s with st := disconnect s.st r w }

/-- The `for ws in self.active[room]` loop interleaved with concurrent
operations.  At iteration `i` the loop bound and `ws` are read from the
current list object; the `i`-th batch of `sched` runs during the await of
`ws`'s send; when the await returns, `ws` joins `living` iff the send
succeeded.  Batches left over when the loop ends belong to tasks scheduled
after the broadcast and are out of scope; once `sched` is exhausted the
remaining iterations run without interleaving. -/
def bloop (ok : Session → Bool) (r : Room) :
    List (List COp) → LoopSt → Nat → LoopSt
  | [], s, i => { s with acc := s.acc ++ ((s.iter.drop i).filter ok) }
  | batch :: rest, s, i =>
    if h : i < s.iter.length then
      let ws := s.iter.get ⟨i, h⟩
      let s1 := batch.foldl (applyCOp r) s
      bloop ok r rest { s1 with acc := if ok ws then s.acc ++ [ws] else s.acc } (i + 1)
    else s

/-- `ConnectionManager.broadcast` under the concurrent interleaving `sched`
(batch `i` executes during the `i`-th awaited send), finishing with the
write-back `self.active[room] = living`. -/
def broadcastI (ok : Session → Bool) (st : Reg) (r : Room)
    (sched : List (List COp)) : Reg × List Session :=
  match st.find? r with
  | none => (st, [])
  | some l =>
    let s := bloop ok r sched { iter := l, alive := true, st := st, acc := [] } 0
    (s.st.set r s.acc, s.acc)

/-- Sanity: with no interleaving the model coincides with `broadcast`. -/
theorem broadcastI_no_interleaving (ok : Session → Bool) (st : Reg) (r : Room) :
    broadcastI ok st r [] = broadcast ok st r := by
  cases hf : st.find? r with
  | none => simp [broadcastI, broadcast, hf]
  | some l => simp [broadcastI, broadcast, hf, bloop, foldl_sendStep]

/-- **C8 counterexample.** Room `"R"` holds `[1, 2]` and every send
succeeds.  While the broadcast awaits its send to session `1`, session `1`
disconnects (its own receive loop failed): `list.remove` shifts the list in
place to `[2]`, the iterator (at index 1) finds the loop bound exhausted and
never sends to `2`, and the write-back `self.active[room] = living`
reinstates `[1]` — the independently unregistered session `1` is
resurrected, and the still-registered session `2` is dropped and never
receives the message. -/
theorem broadcast_replacement_races :
    (broadcastI (fun _ => true) [("R", [1, 2])] "R" [[COp.disc 1]]).1.find? "R" =
        some [1] ∧
    (2 : Session) ∉ (broadcastI (fun _ => true) [("R", [1, 2])] "R" [[COp.disc 1]]).2 := by
  decide

/-- **C8 amended.** The write-back is not atomic in general (see the
counterexample: a concurrent unregister both resurrects the unregistered
session and drops another).  What does hold is the register half of the
claim when no unregister interferes: a session `sN` registered while the
broadcast is suspended in a send is appended to the very list object being
iterated, so the loop also reaches it, and the post-broadcast room list is
the surviving subset of the original sessions plus `sN` — in particular
`sN` survives whenever its own send succeeds. -/
theorem joiner_kept_when_no_disconnect (ok : Session → Bool) (st : Reg)
    (r : Room) (x : Session) (xs : List Session) (sN : Session)
    (h : st.find? r = some (x :: xs)) (hok : ok sN = true) :
    (broadcastI ok st r [[COp.conn sN]]).1.find? r =
      some (((x :: xs) ++ [sN]).filter ok) ∧
    sN ∈ ((broadcastI ok st r [[COp.conn sN]]).1.find? r).getD [] := by
  have hstep : broadcastI ok st r [[COp.conn sN]] =
      ((st.set r ((x :: xs) ++ [sN])).set r (((x :: xs) ++ [sN]).filter ok),
        ((x :: xs) ++ [sN]).filter ok) := by
    simp only [broadcastI, h, bloop, List.length_cons, Nat.succ_pos, dif_pos,
      List.foldl_cons, List.foldl_nil, applyCOp, if_true, List.get]
    by_cases hx : ok x <;>
      simp [hx, List.filter_cons, List.filter_append, List.drop_append_of_le_length]
  rw [hstep]
  refine ⟨Reg.find?_set_self _ r _, ?_⟩
  rw [Reg.find?_set_self, Option.getD_some]
  exact List.mem_filter.mpr ⟨List.mem_append_right _ (List.mem_singleton_self sN), hok⟩

/-- Witness for C8 amended: room `"R"` holds `[1]`; session `2` connects
while the broadcast awaits its send to `1`; both sends succeed and the
post-broadcast room list is `[1, 2]`. -/
theorem joiner_kept_when_no_disconnect_witness :
    (Reg.find? [("R", [1])] "R" = some [1]) ∧
    ((fun _ => true : Session → Bool) 2 = true) ∧
    ((broadcastI (fun _ => true) [("R", [1])] "R" [[COp.conn 2]]).1.find? "R" =
        some (([1] ++ [2]).filter (fun _ => true)) ∧
      (2 : Session) ∈
        ((broadcastI (fun _ => true) [("R", [1])] "R" [[COp.conn 2]]).1.find? "R").getD []) :=
  ⟨rfl, rfl,
    joiner_kept_when_no_disconnect (fun _ => true) [("R", [1])] "R" 1 [] 2 rfl rfl⟩
